import Mathlib

/-
  Shallow embedding of the avro-schema crate's schema deserializer
  (src/lib.rs data model, src/de.rs decoder), together with theorems
  checking the specification's claims against it.
-/

namespace AvroSchema

/-- Model of serde_json::Value: the generic JSON-like input.
Numbers are modelled as integers (the decoder only ever converts a
number when reading the `size` of a fixed, via `from_value::<usize>`). -/
inductive JValue : Type where
  | null : JValue
  | bool : Bool → JValue
  | num : Int → JValue
  | str : String → JValue
  | arr : List JValue → JValue
  | obj : List (String × JValue) → JValue

/-- Model of the `HashMap<String, Value>` the visitors build: an
association list (input mappings have string-unique keys). -/
abbrev JMap := List (String × JValue)

/-- Order, from lib.rs. -/
inductive Order : Type where
  | Ascending : Order
  | Descending : Order
  | Ignore : Order
deriving DecidableEq

/-- Enum, from lib.rs (field order: name, namespace, aliases, doc, symbols, default). -/
structure Enum : Type where
  name : String
  namespace_ : Option String
  aliases : List String
  doc : Option String
  symbols : List String
  default : Option String
deriving DecidableEq

/-- Fixed, from lib.rs (field order: name, namespace, doc, aliases, size). -/
structure Fixed : Type where
  name : String
  namespace_ : Option String
  doc : Option String
  aliases : List String
  size : Nat
deriving DecidableEq

mutual

/-- Schema, from lib.rs. -/
inductive Schema : Type where
  | Null : Schema
  | Boolean : Schema
  | Int : Schema
  | Long : Schema
  | Float : Schema
  | Double : Schema
  | Bytes : Schema
  | String : Schema
  | Record : Record → Schema
  | Enum : Enum → Schema
  | Array : Schema → Schema
  | Map : Schema → Schema
  | Union : List Schema → Schema
  | Fixed : Fixed → Schema

/-- Record, from lib.rs (field order: name, namespace, doc, aliases, fields). -/
inductive Record : Type where
  | mk : String → Option String → Option String → List String → List Field → Record

/-- Field, from lib.rs (field order: name, doc, schema, default, order, aliases). -/
inductive Field : Type where
  | mk : String → Option String → Schema → Option Schema → Option Order → List String → Field

end

/-- Model of the serde error values the decoder produces:
`missing_field`, `custom`, serde's invalid-type error (carrying the
visitor's `expecting` text), and the `todo!` panic on an unhandled
discriminator. -/
inductive DeError : Type where
  | missingField : String → DeError
  | custom : String → DeError
  | invalidType : String → DeError
  | panicTodo : String → DeError
deriving DecidableEq

/- Sizes of JSON values, used as the termination measure of the decoder. -/

mutual

def jsize : JValue → Nat
  | .null => 1
  | .bool _ => 1
  | .num _ => 1
  | .str _ => 1
  | .arr xs => 1 + jsizeList xs
  | .obj kvs => 1 + jsizeKVs kvs

def jsizeList : List JValue → Nat
  | [] => 0
  | x :: xs => jsize x + jsizeList xs

def jsizeKVs : List (String × JValue) → Nat
  | [] => 0
  | kv :: kvs => 1 + jsize kv.2 + jsizeKVs kvs

end

/-- `HashMap::remove`: returns the removed value (if any) and the rest of
the map. On a unique-key association list this is exactly the hash-map
behaviour. -/
def jremove (m : JMap) (key : String) : Option JValue × JMap :=
  match m with
  | [] => (none, [])
  | (k, v) :: rest =>
    if k = key then (some v, rest)
    else
      let r := jremove rest key
      (r.1, (k, v) :: r.2)

/-- Lookup in the mapping (the first component of `jremove`). -/
def jlookup (m : JMap) (key : String) : Option JValue :=
  (jremove m key).1

theorem jsize_pos (j : JValue) : 1 ≤ jsize j := by
  cases j <;> simp only [jsize] <;> omega

theorem jremove_some_size (m : JMap) (key : String) (v : JValue) (rest : JMap)
    (h : jremove m key = (some v, rest)) :
    jsizeKVs m = 1 + jsize v + jsizeKVs rest := by
  induction m generalizing rest with
  | nil => simp [jremove] at h
  | cons kv tl ih =>
    rcases kv with ⟨k, w⟩
    by_cases hk : k = key
    · simp [jremove, hk] at h
      rcases h with ⟨hv, hrest⟩
      subst hv; subst hrest
      simp [jsizeKVs]
    · simp [jremove, hk] at h
      rcases h with ⟨hv, hrest⟩
      have h2 : jremove tl key = (some v, (jremove tl key).2) := by
        rw [← hv]
      have := ih (jremove tl key).2 h2
      subst hrest
      simp [jsizeKVs, this]
      omega

theorem jremove_none_eq (m : JMap) (key : String) (h : (jremove m key).1 = none) :
    jremove m key = (none, m) := by
  induction m with
  | nil => simp [jremove]
  | cons kv tl ih =>
    rcases kv with ⟨k, w⟩
    by_cases hk : k = key
    · simp [jremove, hk] at h
    · simp only [jremove, hk, if_false] at h ⊢
      have := ih h
      simp [this]

theorem jremove_rest_size_le (m : JMap) (key : String) :
    jsizeKVs (jremove m key).2 ≤ jsizeKVs m := by
  induction m with
  | nil => simp [jremove]
  | cons kv tl ih =>
    rcases kv with ⟨k, w⟩
    by_cases hk : k = key
    · simp [jremove, hk, jsizeKVs]
    · simp only [jremove, hk, if_false]
      simp [jsizeKVs]
      omega

theorem jlookup_jremove_ne (m : JMap) (k k' : String) (hne : k' ≠ k) :
    jlookup (jremove m k).2 k' = jlookup m k' := by
  induction m with
  | nil => simp [jremove, jlookup]
  | cons kv tl ih =>
    rcases kv with ⟨a, b⟩
    by_cases ha : a = k
    · have hak' : ¬ (a = k') := by
        rw [ha]; exact Ne.symm hne
      simp only [jremove, if_pos ha]
      simp only [jlookup, jremove, if_neg hak']
    · simp only [jremove, if_neg ha]
      by_cases ha' : a = k'
      · simp [jlookup, jremove, ha']
      · simp only [jlookup, jremove, if_neg ha']
        exact ih

/-- to_primitive, de.rs lines 11-24. -/
def toPrimitive (v : String) : Option Schema :=
  match v with
  | "null" => some .Null
  | "boolean" => some .Boolean
  | "string" => some .String
  | "bytes" => some .Bytes
  | "int" => some .Int
  | "long" => some .Long
  | "float" => some .Float
  | "double" => some .Double
  | _ => none

/-- get_type, de.rs lines 26-36: remove the `"type"` key, requiring a string. -/
def getType (map : JMap) : Except DeError String × JMap :=
  match jremove map "type" with
  | (some (.str s), rest) => (.ok s, rest)
  | (some _, rest) => (.error (.custom "type must be a string"), rest)
  | (none, rest) => (.error (.missingField "type"), rest)

/-- as_string, de.rs lines 38-47. -/
def asString (v : JValue) (helper : String) : Except DeError String :=
  match v with
  | .str s => .ok s
  | _ => .error (.custom (helper ++ " must be a string"))

/-- remove_string, de.rs lines 49-57. -/
def removeString (data : JMap) (key : String) : Except DeError (Option String) × JMap :=
  match jremove data key with
  | (some s, rest) =>
    match asString s key with
    | .ok v => (.ok (some v), rest)
    | .error e => (.error e, rest)
  | (none, rest) => (.ok none, rest)

/-- Collecting `x.into_iter().map(|x| as_string(x, key)).collect()`:
stops at the first element that is not a string. -/
def mapAsString (key : String) : List JValue → Except DeError (List String)
  | [] => .ok []
  | x :: rest =>
    match asString x key with
    | .error e => .error e
    | .ok s =>
      match mapAsString key rest with
      | .error e => .error e
      | .ok ss => .ok (s :: ss)

/-- remove_vec_string, de.rs lines 59-76 (note the source's quirky
"must be a string" message for a non-array value). -/
def removeVecString (data : JMap) (key : String) : Except DeError (List String) × JMap :=
  match jremove data key with
  | (some (.arr xs), rest) => (mapAsString key xs, rest)
  | (some _, rest) => (.error (.custom (key ++ " must be a string")), rest)
  | (none, rest) => (.ok [], rest)

/-- to_order, de.rs lines 160-178. -/
def toOrder (data : JMap) (key : String) : Except DeError (Option Order) × JMap :=
  match removeString data key with
  | (.error e, rest) => (.error e, rest)
  | (.ok none, rest) => (.ok none, rest)
  | (.ok (some x), rest) =>
    match x with
    | "ascending" => (.ok (some .Ascending), rest)
    | "descending" => (.ok (some .Descending), rest)
    | "ignore" => (.ok (some .Ignore), rest)
    | _ => (.error (.custom "order can only be one of \x7bascending, descending, ignore\x7d"), rest)

/-- to_enum, de.rs lines 78-88; extraction order name, namespace,
aliases, doc, symbols, default, mirroring the struct literal. -/
def toEnum (data : JMap) : Except DeError Schema :=
  match removeString data "name" with
  | (.error e, _) => .error e
  | (.ok none, _) => .error (.custom "name is required in enum")
  | (.ok (some name), m1) =>
    match removeString m1 "namespace" with
    | (.error e, _) => .error e
    | (.ok ns, m2) =>
      match removeVecString m2 "aliases" with
      | (.error e, _) => .error e
      | (.ok als, m3) =>
        match removeString m3 "doc" with
        | (.error e, _) => .error e
        | (.ok doc, m4) =>
          match removeVecString m4 "symbols" with
          | (.error e, _) => .error e
          | (.ok syms, m5) =>
            match removeString m5 "default" with
            | (.error e, _) => .error e
            | (.ok dflt, _) => .ok (.Enum (Enum.mk name ns als doc syms dflt))

/-- Model of `serde_json::from_value::<usize>`: accepts a non-negative
integer number, fails otherwise (the error text stands for serde_json's
conversion error message). -/
def fromValueUsize (v : JValue) : Except DeError Nat :=
  match v with
  | .num n => if 0 ≤ n then .ok n.toNat else .error (.custom "invalid value: expected usize")
  | _ => .error (.custom "invalid type: expected usize")

/-- to_fixed, de.rs lines 145-158: `size` is extracted (and converted)
first; its missing-key message is, verbatim, "name is required in enum". -/
def toFixed (data : JMap) : Except DeError Schema :=
  match jremove data "size" with
  | (none, _) => .error (.custom "name is required in enum")
  | (some x, m0) =>
    match fromValueUsize x with
    | .error e => .error e
    | .ok size =>
      match removeString m0 "name" with
      | (.error e, _) => .error e
      | (.ok none, _) => .error (.custom "name is required in enum")
      | (.ok (some name), m1) =>
        match removeString m1 "namespace" with
        | (.error e, _) => .error e
        | (.ok ns, m2) =>
          match removeVecString m2 "aliases" with
          | (.error e, _) => .error e
          | (.ok als, m3) =>
            match removeString m3 "doc" with
            | (.error e, _) => .error e
            | (.ok doc, _) => .ok (.Fixed (Fixed.mk name ns doc als size))

/-- Continuation of FieldVisitor::visit_map (de.rs lines 269-278) after
name/doc/schema/default have been extracted: the remaining `order` and
`aliases` extractions and the Field literal. -/
def finishField (name : String) (doc : Option String) (schema : Schema)
    (dflt : Option Schema) (m : JMap) : Except DeError Field :=
  match toOrder m "order" with
  | (.error e, _) => .error e
  | (.ok ord, m5) =>
    match removeVecString m5 "aliases" with
    | (.error e, _) => .error e
    | (.ok als, _) => .ok (.mk name doc schema dflt ord als)

theorem removeString_snd (data : JMap) (key : String) :
    (removeString data key).2 = (jremove data key).2 := by
  unfold removeString
  rcases h : jremove data key with ⟨o, rest⟩
  cases o with
  | none => simp
  | some s => cases hs : asString s key <;> simp [hs]

theorem removeVecString_snd (data : JMap) (key : String) :
    (removeVecString data key).2 = (jremove data key).2 := by
  unfold removeVecString
  rcases h : jremove data key with ⟨o, rest⟩
  cases o with
  | none => simp
  | some s => cases s <;> simp

theorem removeString_out_le (data : JMap) (key : String) (r : Except DeError (Option String))
    (m' : JMap) (h : removeString data key = (r, m')) : jsizeKVs m' ≤ jsizeKVs data := by
  have h2 : (removeString data key).2 = m' := by rw [h]
  rw [removeString_snd] at h2
  rw [← h2]
  exact jremove_rest_size_le data key

theorem removeVecString_out_le (data : JMap) (key : String) (r : Except DeError (List String))
    (m' : JMap) (h : removeVecString data key = (r, m')) : jsizeKVs m' ≤ jsizeKVs data := by
  have h2 : (removeVecString data key).2 = m' := by rw [h]
  rw [removeVecString_snd] at h2
  rw [← h2]
  exact jremove_rest_size_le data key

theorem getType_ok (map : JMap) (t : String) (m : JMap) (h : getType map = (.ok t, m)) :
    jremove map "type" = (some (.str t), m) := by
  unfold getType at h
  rcases hr : jremove map "type" with ⟨o, rest⟩
  rw [hr] at h
  cases o with
  | none => simp at h
  | some s => cases s <;> simp_all

theorem getType_ok_size (map : JMap) (t : String) (m : JMap) (h : getType map = (.ok t, m)) :
    jsizeKVs map = 2 + jsizeKVs m := by
  have := jremove_some_size map "type" (.str t) m (getType_ok map t m h)
  simp only [jsize] at this
  omega

mutual

/-- decode_schema: `Deserialize for Schema` (de.rs lines 239-246),
dispatching by input shape exactly as SchemaVisitor does (visit_str,
visit_seq, visit_map; any other shape gets serde's invalid-type error
built from the visitor's `expecting` text). -/
def decodeSchema : JValue → Except DeError Schema
  | .str s =>
    match toPrimitive s with
    | some sch => .ok sch
    | none => .error (.custom "string must be a valid primitive Schema")
  | .arr xs =>
    match decodeSchemaList xs with
    | .error e => .error e
    | .ok vec => .ok (.Union vec)
  | .obj kvs => visitMapSchema kvs
  | .null => .error (.invalidType "a string, array or map describing an Avro schema")
  | .bool _ => .error (.invalidType "a string, array or map describing an Avro schema")
  | .num _ => .error (.invalidType "a string, array or map describing an Avro schema")
termination_by j => 4 * jsize j
decreasing_by
  all_goals simp only [jsize]; omega

/-- The element loop of SchemaVisitor::visit_seq (de.rs lines 198-208):
each element is decoded as a full nested Schema, stopping at the first
failure. -/
def decodeSchemaList : List JValue → Except DeError (List Schema)
  | [] => .ok []
  | x :: xs =>
    match decodeSchema x with
    | .error e => .error e
    | .ok s =>
      match decodeSchemaList xs with
      | .error e => .error e
      | .ok ss => .ok (s :: ss)
termination_by xs => 4 * jsizeList xs + 1
decreasing_by
  all_goals { have h0 := jsize_pos x; simp only [jsizeList]; omega }

/-- SchemaVisitor::visit_map (de.rs lines 210-236): extract the `type`
discriminator, reduce to a primitive if it names one, otherwise dispatch
on the composite kind; an unknown kind hits `todo!(other)`. -/
def visitMapSchema (map : JMap) : Except DeError Schema :=
  match h : getType map with
  | (.error e, _) => .error e
  | (.ok t, m) =>
    match toPrimitive t with
    | some s => .ok s
    | none =>
      if t = "enum" then toEnum m
      else if t = "map" then toMap m
      else if t = "array" then toArray m
      else if t = "record" then toRecord m
      else if t = "fixed" then toFixed m
      else .error (.panicTodo t)
termination_by 4 * jsizeKVs map + 3
decreasing_by
  all_goals { have h0 := getType_ok_size map t m h; omega }

/-- to_map, de.rs lines 90-96. -/
def toMap (data : JMap) : Except DeError Schema :=
  match h : jremove data "values" with
  | (none, _) => .error (.custom "values is required in a map")
  | (some v, rest) =>
    match decodeSchema v with
    | .error e => .error e
    | .ok s => .ok (.Map s)
termination_by 4 * jsizeKVs data + 1
decreasing_by
  all_goals { have h0 := jremove_some_size _ _ _ _ h; omega }

/-- to_array, de.rs lines 108-112: to_schema on "items", then
ok_or_else the missing-items error. -/
def toArray (data : JMap) : Except DeError Schema :=
  match h : jremove data "items" with
  | (none, _) => .error (.custom "items is required in an array")
  | (some v, rest) =>
    match decodeSchema v with
    | .error e => .error e
    | .ok s => .ok (.Array s)
termination_by 4 * jsizeKVs data + 1
decreasing_by
  all_goals { have h0 := jremove_some_size _ _ _ _ h; omega }

/-- to_record, de.rs lines 134-143; extraction order name, namespace,
aliases, doc, fields, mirroring the struct literal. -/
def toRecord (data : JMap) : Except DeError Schema :=
  match h1 : removeString data "name" with
  | (.error e, _) => .error e
  | (.ok none, _) => .error (.custom "name is required in enum")
  | (.ok (some name), m1) =>
    match h2 : removeString m1 "namespace" with
    | (.error e, _) => .error e
    | (.ok ns, m2) =>
      match h3 : removeVecString m2 "aliases" with
      | (.error e, _) => .error e
      | (.ok als, m3) =>
        match h4 : removeString m3 "doc" with
        | (.error e, _) => .error e
        | (.ok doc, m4) =>
          match toVecFields m4 "fields" with
          | .error e => .error e
          | .ok fields => .ok (.Record (.mk name ns doc als fields))
termination_by 4 * jsizeKVs data + 2
decreasing_by
  have e1 := removeString_out_le _ _ _ _ h1
  have e2 := removeString_out_le _ _ _ _ h2
  have e3 := removeVecString_out_le _ _ _ _ h3
  have e4 := removeString_out_le _ _ _ _ h4
  omega

/-- to_vec_fields, de.rs lines 118-132 (with the source's quirky
"must be a string" message for a non-array value). -/
def toVecFields (data : JMap) (key : String) : Except DeError (List Field) :=
  match h : jremove data key with
  | (some (.arr xs), rest) => decodeFieldList xs
  | (some _, _) => .error (.custom (key ++ " must be a string"))
  | (none, _) => .ok []
termination_by 4 * jsizeKVs data + 1
decreasing_by
  have := jremove_some_size _ _ _ _ h
  simp only [jsize] at this
  omega

/-- The element loop of to_vec_fields: each element is decoded by
to_field (de.rs lines 114-116), i.e. the full Field deserializer. -/
def decodeFieldList : List JValue → Except DeError (List Field)
  | [] => .ok []
  | x :: xs =>
    match decodeField x with
    | .error e => .error e
    | .ok f =>
      match decodeFieldList xs with
      | .error e => .error e
      | .ok fs => .ok (f :: fs)
termination_by xs => 4 * jsizeList xs + 1
decreasing_by
  all_goals { have h0 := jsize_pos x; simp only [jsizeList]; omega }

/-- decode_field: `Deserialize for Field` (de.rs lines 282-289), via
deserialize_map: only a mapping is accepted. -/
def decodeField : JValue → Except DeError Field
  | .obj kvs => visitMapField kvs
  | .null => .error (.invalidType "a map describing an Avro field")
  | .bool _ => .error (.invalidType "a map describing an Avro field")
  | .num _ => .error (.invalidType "a map describing an Avro field")
  | .str _ => .error (.invalidType "a map describing an Avro field")
  | .arr _ => .error (.invalidType "a map describing an Avro field")
termination_by j => 4 * jsize j
decreasing_by
  simp only [jsize]; omega

/-- FieldVisitor::visit_map, de.rs lines 257-279: extraction order name,
doc, then (in `fieldTypeRest`) type, default, order and aliases. -/
def visitMapField (map : JMap) : Except DeError Field :=
  match h1 : removeString map "name" with
  | (.error e, _) => .error e
  | (.ok none, _) => .error (.custom "name is required in enum")
  | (.ok (some name), m1) =>
    match h2 : removeString m1 "doc" with
    | (.error e, _) => .error e
    | (.ok doc, m2) => fieldTypeRest name doc m2
termination_by 4 * jsizeKVs map + 2
decreasing_by
  have e1 := removeString_out_le _ _ _ _ h1
  have e2 := removeString_out_le _ _ _ _ h2
  omega

/-- Continuation of FieldVisitor::visit_map after name and doc: the
required `type` (nested schema), the optional `default` (nested schema),
then order and aliases (in `finishField`). -/
def fieldTypeRest (name : String) (doc : Option String) (m2 : JMap) : Except DeError Field :=
  match h3 : jremove m2 "type" with
  | (none, _) => .error (.custom "schema is required in Field")
  | (some tv, m3) =>
    match decodeSchema tv with
    | .error e => .error e
    | .ok sch =>
      match h4 : jremove m3 "default" with
      | (none, m4) => finishField name doc sch none m4
      | (some dv, m4) =>
        match decodeSchema dv with
        | .error e => .error e
        | .ok dsch => finishField name doc sch (some dsch) m4
termination_by 4 * jsizeKVs m2 + 1
decreasing_by
  all_goals {
    have e3 := jremove_some_size _ _ _ _ h3
    first
    | (have e4 := jremove_some_size _ _ _ _ h4; omega)
    | omega
  }

end

/- Characterisation lemmas used to reason symbolically about the decoder. -/

theorem jremove_eq_of_lookup (m : JMap) (k : String) (v : JValue)
    (h : jlookup m k = some v) : jremove m k = (some v, (jremove m k).2) := by
  unfold jlookup at h
  rw [← h]

theorem removeString_none (m : JMap) (k : String) (h : jlookup m k = none) :
    removeString m k = (.ok none, m) := by
  unfold removeString
  rw [jremove_none_eq m k h]

theorem removeString_str (m : JMap) (k s : String) (h : jlookup m k = some (.str s)) :
    removeString m k = (.ok (some s), (jremove m k).2) := by
  unfold removeString
  rw [jremove_eq_of_lookup m k _ h]
  simp [asString]

theorem removeVecString_none (m : JMap) (k : String) (h : jlookup m k = none) :
    removeVecString m k = (.ok [], m) := by
  unfold removeVecString
  rw [jremove_none_eq m k h]

theorem removeVecString_arr (m : JMap) (k : String) (xs : List JValue)
    (h : jlookup m k = some (.arr xs)) :
    removeVecString m k = (mapAsString k xs, (jremove m k).2) := by
  unfold removeVecString
  rw [jremove_eq_of_lookup m k _ h]

theorem mapAsString_map_str (key : String) (as_ : List String) :
    mapAsString key (as_.map .str) = .ok as_ := by
  induction as_ with
  | nil => simp [mapAsString]
  | cons a tl ih => simp [mapAsString, asString, ih]

theorem getType_str (m : JMap) (t : String) (h : jlookup m "type" = some (.str t)) :
    getType m = (.ok t, (jremove m "type").2) := by
  unfold getType
  rw [jremove_eq_of_lookup m "type" _ h]

theorem getType_missing (m : JMap) (h : jlookup m "type" = none) :
    getType m = (.error (.missingField "type"), m) := by
  unfold getType
  rw [jremove_none_eq m "type" h]

/-- The literal accepted by to_order for each Order value. -/
def orderLit : Order → String
  | .Ascending => "ascending"
  | .Descending => "descending"
  | .Ignore => "ignore"

theorem toOrder_none (m : JMap) (k : String) (h : jlookup m k = none) :
    toOrder m k = (.ok none, m) := by
  unfold toOrder
  rw [removeString_none m k h]

theorem toOrder_lit (m : JMap) (k : String) (o : Order)
    (h : jlookup m k = some (.str (orderLit o))) :
    toOrder m k = (.ok (some o), (jremove m k).2) := by
  unfold toOrder
  rw [removeString_str m k _ h]
  cases o <;> simp [orderLit]

theorem toPrimitive_shape (t : String) (s : Schema) (h : toPrimitive t = some s) :
    s = .Null ∨ s = .Boolean ∨ s = .String ∨ s = .Bytes ∨
      s = .Int ∨ s = .Long ∨ s = .Float ∨ s = .Double := by
  unfold toPrimitive at h
  split at h <;> simp_all

theorem toPrimitive_eq_none (t : String)
    (h : t ∉ ["null", "boolean", "string", "bytes", "int", "long", "float", "double"]) :
    toPrimitive t = none := by
  unfold toPrimitive
  split <;> simp_all

theorem decode_obj_eq (kvs : JMap) : decodeSchema (.obj kvs) = visitMapSchema kvs := by
  simp [decodeSchema]

theorem decode_obj_prim (kvs : JMap) (t : String) (s : Schema)
    (ht : jlookup kvs "type" = some (.str t)) (hp : toPrimitive t = some s) :
    decodeSchema (.obj kvs) = .ok s := by
  rw [decode_obj_eq]
  unfold visitMapSchema
  rw [getType_str kvs t ht]
  simp [hp]

theorem decode_obj_composite (kvs : JMap) (t : String)
    (ht : jlookup kvs "type" = some (.str t)) (hp : toPrimitive t = none) :
    decodeSchema (.obj kvs) =
      (if t = "enum" then toEnum (jremove kvs "type").2
       else if t = "map" then toMap (jremove kvs "type").2
       else if t = "array" then toArray (jremove kvs "type").2
       else if t = "record" then toRecord (jremove kvs "type").2
       else if t = "fixed" then toFixed (jremove kvs "type").2
       else .error (.panicTodo t)) := by
  rw [decode_obj_eq]
  unfold visitMapSchema
  rw [getType_str kvs t ht]
  simp [hp]

theorem toEnum_missing_name (data : JMap) (h : jlookup data "name" = none) :
    toEnum data = .error (.custom "name is required in enum") := by
  unfold toEnum
  rw [removeString_none data "name" h]

theorem toRecord_missing_name (data : JMap) (h : jlookup data "name" = none) :
    toRecord data = .error (.custom "name is required in enum") := by
  unfold toRecord
  rw [removeString_none data "name" h]

theorem toFixed_missing_name (data : JMap) (h : jlookup data "name" = none) :
    (∃ e, toFixed data = .error e) ∧
      ((jlookup data "size" = none ∨
          ∃ n : Int, 0 ≤ n ∧ jlookup data "size" = some (.num n)) →
        toFixed data = .error (.custom "name is required in enum")) := by
  have hname0 : ∀ m0, m0 = (jremove data "size").2 →
      removeString m0 "name" = (.ok none, m0) := by
    intro m0 hm0
    apply removeString_none
    rw [hm0, jlookup_jremove_ne data "size" "name" (by decide), h]
  constructor
  · unfold toFixed
    rcases hs : jremove data "size" with ⟨o, m0⟩
    cases o with
    | none => exact ⟨_, rfl⟩
    | some x =>
      cases hv : fromValueUsize x with
      | error e => exact ⟨e, by simp [hv]⟩
      | ok n =>
        have hm0 : m0 = (jremove data "size").2 := by rw [hs]
        exact ⟨.custom "name is required in enum", by simp [hv, hname0 m0 hm0]⟩
  · intro hsz
    unfold toFixed
    rcases hsz with hnone | ⟨n, hn, hsome⟩
    · rw [jremove_none_eq data "size" hnone]
    · rw [jremove_eq_of_lookup data "size" _ hsome]
      simp [fromValueUsize, hn, hname0 _ rfl]

theorem jlookup_jremove_pair_ne (data : JMap) (k k' : String) (o : Option JValue)
    (m' : JMap) (h : jremove data k = (o, m')) (hne : k' ≠ k) :
    jlookup m' k' = jlookup data k' := by
  have h2 : (jremove data k).2 = m' := by rw [h]
  rw [← h2, jlookup_jremove_ne data k k' hne]

theorem jlookup_removeString_ne (data : JMap) (k k' : String)
    (r : Except DeError (Option String)) (m' : JMap)
    (h : removeString data k = (r, m')) (hne : k' ≠ k) :
    jlookup m' k' = jlookup data k' := by
  have h2 : (removeString data k).2 = m' := by rw [h]
  rw [removeString_snd] at h2
  rw [← h2, jlookup_jremove_ne data k k' hne]

theorem jlookup_removeVecString_ne (data : JMap) (k k' : String)
    (r : Except DeError (List String)) (m' : JMap)
    (h : removeVecString data k = (r, m')) (hne : k' ≠ k) :
    jlookup m' k' = jlookup data k' := by
  have h2 : (removeVecString data k).2 = m' := by rw [h]
  rw [removeVecString_snd] at h2
  rw [← h2, jlookup_jremove_ne data k k' hne]

/-- Record.aliases projection. -/
def Record.aliases : Record → List String
  | .mk _ _ _ als _ => als

/-- Field.aliases projection. -/
def Field.aliases : Field → List String
  | .mk _ _ _ _ _ als => als

theorem toEnum_aliases (data : JMap) (hal : jlookup data "aliases" = none)
    (en : Enum) (h : toEnum data = .ok (.Enum en)) : en.aliases = [] := by
  unfold toEnum at h
  rcases h1 : removeString data "name" with ⟨r1, m1⟩
  rw [h1] at h
  cases r1 with
  | error e => simp at h
  | ok o1 =>
    cases o1 with
    | none => simp at h
    | some name =>
      simp only [] at h
      have hal1 : jlookup m1 "aliases" = none := by
        rw [jlookup_removeString_ne data "name" "aliases" _ m1 h1 (by decide), hal]
      rcases h2 : removeString m1 "namespace" with ⟨r2, m2⟩
      rw [h2] at h
      cases r2 with
      | error e => simp at h
      | ok ns =>
        simp only [] at h
        have hal2 : jlookup m2 "aliases" = none := by
          rw [jlookup_removeString_ne m1 "namespace" "aliases" _ m2 h2 (by decide), hal1]
        rw [removeVecString_none m2 "aliases" hal2] at h
        simp only [] at h
        rcases h3 : removeString m2 "doc" with ⟨r3, m3⟩
        rw [h3] at h
        cases r3 with
        | error e => simp at h
        | ok doc =>
          simp only [] at h
          rcases h4 : removeVecString m3 "symbols" with ⟨r4, m4⟩
          rw [h4] at h
          cases r4 with
          | error e => simp at h
          | ok syms =>
            simp only [] at h
            rcases h5 : removeString m4 "default" with ⟨r5, m5⟩
            rw [h5] at h
            cases r5 with
            | error e => simp at h
            | ok dflt =>
              simp only [Except.ok.injEq, Schema.Enum.injEq] at h
              rw [← h]

theorem toRecord_aliases (data : JMap) (hal : jlookup data "aliases" = none)
    (r : Record) (h : toRecord data = .ok (.Record r)) : r.aliases = [] := by
  unfold toRecord at h
  rcases h1 : removeString data "name" with ⟨r1, m1⟩
  rw [h1] at h
  cases r1 with
  | error e => simp at h
  | ok o1 =>
    cases o1 with
    | none => simp at h
    | some name =>
      simp only [] at h
      have hal1 : jlookup m1 "aliases" = none := by
        rw [jlookup_removeString_ne data "name" "aliases" _ m1 h1 (by decide), hal]
      rcases h2 : removeString m1 "namespace" with ⟨r2, m2⟩
      rw [h2] at h
      cases r2 with
      | error e => simp at h
      | ok ns =>
        simp only [] at h
        have hal2 : jlookup m2 "aliases" = none := by
          rw [jlookup_removeString_ne m1 "namespace" "aliases" _ m2 h2 (by decide), hal1]
        rw [removeVecString_none m2 "aliases" hal2] at h
        simp only [] at h
        rcases h3 : removeString m2 "doc" with ⟨r3, m3⟩
        rw [h3] at h
        cases r3 with
        | error e => simp at h
        | ok doc =>
          simp only [] at h
          cases h4 : toVecFields m3 "fields" with
          | error e => rw [h4] at h; simp at h
          | ok fields =>
            rw [h4] at h
            simp only [Except.ok.injEq, Schema.Record.injEq] at h
            rw [← h]
            rfl

theorem toFixed_aliases (data : JMap) (hal : jlookup data "aliases" = none)
    (fx : Fixed) (h : toFixed data = .ok (.Fixed fx)) : fx.aliases = [] := by
  unfold toFixed at h
  rcases h0 : jremove data "size" with ⟨o0, m0⟩
  rw [h0] at h
  cases o0 with
  | none => simp at h
  | some x =>
    simp only [] at h
    cases hv : fromValueUsize x with
    | error e => rw [hv] at h; simp at h
    | ok size =>
      rw [hv] at h
      simp only [] at h
      have hal0 : jlookup m0 "aliases" = none := by
        rw [jlookup_jremove_pair_ne data "size" "aliases" _ m0 h0 (by decide), hal]
      rcases h1 : removeString m0 "name" with ⟨r1, m1⟩
      rw [h1] at h
      cases r1 with
      | error e => simp at h
      | ok o1 =>
        cases o1 with
        | none => simp at h
        | some name =>
          simp only [] at h
          have hal1 : jlookup m1 "aliases" = none := by
            rw [jlookup_removeString_ne m0 "name" "aliases" _ m1 h1 (by decide), hal0]
          rcases h2 : removeString m1 "namespace" with ⟨r2, m2⟩
          rw [h2] at h
          cases r2 with
          | error e => simp at h
          | ok ns =>
            simp only [] at h
            have hal2 : jlookup m2 "aliases" = none := by
              rw [jlookup_removeString_ne m1 "namespace" "aliases" _ m2 h2 (by decide), hal1]
            rw [removeVecString_none m2 "aliases" hal2] at h
            simp only [] at h
            rcases h3 : removeString m2 "doc" with ⟨r3, m3⟩
            rw [h3] at h
            cases r3 with
            | error e => simp at h
            | ok doc =>
              simp only [Except.ok.injEq, Schema.Fixed.injEq] at h
              rw [← h]

theorem toEnum_shape (data : JMap) (s : Schema) (h : toEnum data = .ok s) :
    ∃ en, s = .Enum en := by
  unfold toEnum at h
  repeat' split at h
  all_goals cases h
  all_goals exact ⟨_, rfl⟩

theorem toMap_shape (data : JMap) (s : Schema) (h : toMap data = .ok s) :
    ∃ x, s = .Map x := by
  unfold toMap at h
  repeat' split at h
  all_goals cases h
  all_goals exact ⟨_, rfl⟩

theorem toArray_shape (data : JMap) (s : Schema) (h : toArray data = .ok s) :
    ∃ x, s = .Array x := by
  unfold toArray at h
  repeat' split at h
  all_goals cases h
  all_goals exact ⟨_, rfl⟩

theorem toRecord_shape (data : JMap) (s : Schema) (h : toRecord data = .ok s) :
    ∃ r, s = .Record r := by
  unfold toRecord at h
  repeat' split at h
  all_goals cases h
  all_goals exact ⟨_, rfl⟩

theorem toFixed_shape (data : JMap) (s : Schema) (h : toFixed data = .ok s) :
    ∃ fx, s = .Fixed fx := by
  unfold toFixed at h
  repeat' split at h
  all_goals cases h
  all_goals exact ⟨_, rfl⟩

theorem toOrder_snd (data : JMap) (key : String) :
    (toOrder data key).2 = (jremove data key).2 := by
  unfold toOrder
  repeat' split
  all_goals (have h2 := removeString_snd data key; simp_all)

theorem jlookup_toOrder_ne (data : JMap) (k k' : String)
    (r : Except DeError (Option Order)) (m' : JMap)
    (h : toOrder data k = (r, m')) (hne : k' ≠ k) :
    jlookup m' k' = jlookup data k' := by
  have h2 : (toOrder data k).2 = m' := by rw [h]
  rw [toOrder_snd] at h2
  rw [← h2, jlookup_jremove_ne data k k' hne]

theorem finishField_aliases (name : String) (doc : Option String) (schema : Schema)
    (dflt : Option Schema) (m : JMap) (hal : jlookup m "aliases" = none)
    (f : Field) (h : finishField name doc schema dflt m = .ok f) : f.aliases = [] := by
  unfold finishField at h
  rcases h1 : toOrder m "order" with ⟨r1, m5⟩
  rw [h1] at h
  cases r1 with
  | error e => simp at h
  | ok ord =>
    simp only [] at h
    have hal5 : jlookup m5 "aliases" = none := by
      rw [jlookup_toOrder_ne m "order" "aliases" _ m5 h1 (by decide), hal]
    rw [removeVecString_none m5 "aliases" hal5] at h
    simp only [Except.ok.injEq] at h
    rw [← h]
    rfl

theorem fieldTypeRest_aliases (name : String) (doc : Option String) (m2 : JMap)
    (hal2 : jlookup m2 "aliases" = none)
    (f : Field) (h : fieldTypeRest name doc m2 = .ok f) : f.aliases = [] := by
  unfold fieldTypeRest at h
  rcases h3 : jremove m2 "type" with ⟨o3, m3⟩
  rw [h3] at h
  cases o3 with
  | none => simp at h
  | some tv =>
    simp only [] at h
    have hal3 : jlookup m3 "aliases" = none := by
      rw [jlookup_jremove_pair_ne m2 "type" "aliases" _ m3 h3 (by decide), hal2]
    cases hsch : decodeSchema tv with
    | error e => rw [hsch] at h; simp at h
    | ok sch =>
      rw [hsch] at h
      simp only [] at h
      rcases h4 : jremove m3 "default" with ⟨o4, m4⟩
      rw [h4] at h
      have hal4 : jlookup m4 "aliases" = none := by
        rw [jlookup_jremove_pair_ne m3 "default" "aliases" _ m4 h4 (by decide), hal3]
      cases o4 with
      | none =>
        simp only [] at h
        exact finishField_aliases name doc sch none m4 hal4 f h
      | some dv =>
        simp only [] at h
        cases hdv : decodeSchema dv with
        | error e => rw [hdv] at h; simp at h
        | ok dsch =>
          rw [hdv] at h
          simp only [] at h
          exact finishField_aliases name doc sch (some dsch) m4 hal4 f h

theorem visitMapField_aliases (map : JMap) (hal : jlookup map "aliases" = none)
    (f : Field) (h : visitMapField map = .ok f) : f.aliases = [] := by
  unfold visitMapField at h
  rcases h1 : removeString map "name" with ⟨r1, m1⟩
  rw [h1] at h
  cases r1 with
  | error e => simp at h
  | ok o1 =>
    cases o1 with
    | none => simp at h
    | some name =>
      simp only [] at h
      have hal1 : jlookup m1 "aliases" = none := by
        rw [jlookup_removeString_ne map "name" "aliases" _ m1 h1 (by decide), hal]
      rcases h2 : removeString m1 "doc" with ⟨r2, m2⟩
      rw [h2] at h
      cases r2 with
      | error e => simp at h
      | ok doc =>
        simp only [] at h
        have hal2 : jlookup m2 "aliases" = none := by
          rw [jlookup_removeString_ne m1 "doc" "aliases" _ m2 h2 (by decide), hal1]
        exact fieldTypeRest_aliases name doc m2 hal2 f h

theorem decodeField_obj_eq (kvs : JMap) : decodeField (.obj kvs) = visitMapField kvs := by
  simp [decodeField]

/-- Relational spec for an optional nested schema: the key is absent, or
holds a value that decodes to the given schema. -/
def decodesOpt (o : Option JValue) (r : Option Schema) : Prop :=
  match r with
  | none => o = none
  | some s => ∃ v, o = some v ∧ decodeSchema v = .ok s

/-- Relational spec for an aliases value: the key is absent (yielding []),
or holds an array of exactly the given strings. -/
def aliasesTo (o : Option JValue) (als : List String) : Prop :=
  match o with
  | none => als = []
  | some v => v = .arr (als.map .str)

theorem removeVecString_spec (m : JMap) (als : List String)
    (hal : aliasesTo (jlookup m "aliases") als) :
    ∃ m2, removeVecString m "aliases" = (.ok als, m2) := by
  cases hv : jlookup m "aliases" with
  | none =>
    rw [hv] at hal
    simp only [aliasesTo] at hal
    subst hal
    exact ⟨m, removeVecString_none m "aliases" hv⟩
  | some v =>
    rw [hv] at hal
    simp only [aliasesTo] at hal
    subst hal
    refine ⟨(jremove m "aliases").2, ?_⟩
    rw [removeVecString_arr m "aliases" (als.map .str) hv, mapAsString_map_str]

theorem finishField_spec (name : String) (doc : Option String) (schema : Schema)
    (dflt : Option Schema) (m : JMap) (ord : Option Order) (als : List String)
    (hord : jlookup m "order" = Option.map (fun o => JValue.str (orderLit o)) ord)
    (hal : aliasesTo (jlookup m "aliases") als) :
    finishField name doc schema dflt m = .ok (.mk name doc schema dflt ord als) := by
  unfold finishField
  cases ord with
  | none =>
    have hord2 : jlookup m "order" = none := by simpa using hord
    rw [toOrder_none m "order" hord2]
    obtain ⟨m2, hrw⟩ := removeVecString_spec m als hal
    simp only []
    rw [hrw]
  | some o =>
    have hord2 : jlookup m "order" = some (.str (orderLit o)) := by simpa using hord
    rw [toOrder_lit m "order" o hord2]
    have hal2 : aliasesTo (jlookup (jremove m "order").2 "aliases") als := by
      rw [jlookup_jremove_ne m "order" "aliases" (by decide)]; exact hal
    obtain ⟨m2, hrw⟩ := removeVecString_spec _ als hal2
    simp only []
    rw [hrw]

theorem visitMapField_missing_name (map : JMap) (h : jlookup map "name" = none) :
    visitMapField map = .error (.custom "name is required in enum") := by
  unfold visitMapField
  rw [removeString_none map "name" h]

theorem fieldTypeRest_missing_type (name : String) (doc : Option String) (m2 : JMap)
    (ht : jlookup m2 "type" = none) :
    fieldTypeRest name doc m2 = .error (.custom "schema is required in Field") := by
  unfold fieldTypeRest
  rw [jremove_none_eq m2 "type" ht]

theorem visitMapField_missing_type (map : JMap) (n : String) (doc : Option String)
    (hn : jlookup map "name" = some (.str n))
    (hdoc : jlookup map "doc" = Option.map JValue.str doc)
    (ht : jlookup map "type" = none) :
    visitMapField map = .error (.custom "schema is required in Field") := by
  unfold visitMapField
  rw [removeString_str map "name" n hn]
  simp only []
  have q1 : ∀ k', k' ≠ "name" → jlookup (jremove map "name").2 k' = jlookup map k' :=
    fun k' hk => jlookup_jremove_ne map "name" k' hk
  cases doc with
  | none =>
    rw [removeString_none _ "doc" (by rw [q1 "doc" (by decide)]; simpa using hdoc)]
    simp only []
    exact fieldTypeRest_missing_type n none _ (by rw [q1 "type" (by decide)]; exact ht)
  | some d =>
    rw [removeString_str _ "doc" d (by rw [q1 "doc" (by decide)]; simpa using hdoc)]
    simp only []
    exact fieldTypeRest_missing_type n (some d) _
      (by rw [jlookup_jremove_ne _ "doc" "type" (by decide), q1 "type" (by decide)]; exact ht)

theorem visitMapField_spec (map : JMap) (n : String) (doc : Option String)
    (tv : JValue) (sch : Schema) (dflt : Option Schema) (ord : Option Order) (als : List String)
    (hn : jlookup map "name" = some (.str n))
    (hdoc : jlookup map "doc" = Option.map JValue.str doc)
    (htv : jlookup map "type" = some tv)
    (hsch : decodeSchema tv = .ok sch)
    (hdef : decodesOpt (jlookup map "default") dflt)
    (hord : jlookup map "order" = Option.map (fun o => JValue.str (orderLit o)) ord)
    (hal : aliasesTo (jlookup map "aliases") als) :
    visitMapField map = .ok (.mk n doc sch dflt ord als) := by
  have main : ∀ m2 : JMap,
      jlookup m2 "type" = some tv →
      decodesOpt (jlookup m2 "default") dflt →
      jlookup m2 "order" = Option.map (fun o => JValue.str (orderLit o)) ord →
      aliasesTo (jlookup m2 "aliases") als →
      fieldTypeRest n doc m2 = .ok (.mk n doc sch dflt ord als) := by
    intro m2 htv2 hdef2 hord2 hal2
    unfold fieldTypeRest
    rw [jremove_eq_of_lookup m2 "type" tv htv2]
    simp only []
    rw [hsch]
    simp only []
    have q3 : ∀ k', k' ≠ "type" →
        jlookup (jremove m2 "type").2 k' = jlookup m2 k' :=
      fun k' c => jlookup_jremove_ne m2 "type" k' c
    cases dflt with
    | none =>
      have hd : jlookup (jremove m2 "type").2 "default" = none := by
        rw [q3 "default" (by decide)]
        simpa [decodesOpt] using hdef2
      rw [jremove_none_eq _ "default" hd]
      simp only []
      apply finishField_spec
      · rw [q3 "order" (by decide)]; exact hord2
      · rw [q3 "aliases" (by decide)]; exact hal2
    | some ds =>
      simp only [decodesOpt] at hdef2
      rcases hdef2 with ⟨dv, hdv, hdvd⟩
      rw [jremove_eq_of_lookup _ "default" dv (by rw [q3 "default" (by decide)]; exact hdv)]
      simp only []
      rw [hdvd]
      simp only []
      have q4 : ∀ k', k' ≠ "type" → k' ≠ "default" →
          jlookup (jremove (jremove m2 "type").2 "default").2 k' = jlookup m2 k' := by
        intro k' c d2
        rw [jlookup_jremove_ne _ "default" k' d2, q3 k' c]
      apply finishField_spec
      · rw [q4 "order" (by decide) (by decide)]; exact hord2
      · rw [q4 "aliases" (by decide) (by decide)]; exact hal2
  unfold visitMapField
  rw [removeString_str map "name" n hn]
  simp only []
  have q1 : ∀ k', k' ≠ "name" → jlookup (jremove map "name").2 k' = jlookup map k' :=
    fun k' hk => jlookup_jremove_ne map "name" k' hk
  cases doc with
  | none =>
    rw [removeString_none _ "doc" (by rw [q1 "doc" (by decide)]; simpa using hdoc)]
    simp only []
    refine main (jremove map "name").2 ?_ ?_ ?_ ?_
    · rw [q1 "type" (by decide)]; exact htv
    · rw [q1 "default" (by decide)]; exact hdef
    · rw [q1 "order" (by decide)]; exact hord
    · rw [q1 "aliases" (by decide)]; exact hal
  | some d =>
    rw [removeString_str _ "doc" d (by rw [q1 "doc" (by decide)]; simpa using hdoc)]
    simp only []
    have q2 : ∀ k', k' ≠ "name" → k' ≠ "doc" →
        jlookup (jremove (jremove map "name").2 "doc").2 k' = jlookup map k' := by
      intro k' a b
      rw [jlookup_jremove_ne _ "doc" k' b, q1 k' a]
    refine main (jremove (jremove map "name").2 "doc").2 ?_ ?_ ?_ ?_
    · rw [q2 "type" (by decide) (by decide)]; exact htv
    · rw [q2 "default" (by decide) (by decide)]; exact hdef
    · rw [q2 "order" (by decide) (by decide)]; exact hord
    · rw [q2 "aliases" (by decide) (by decide)]; exact hal

theorem decode_obj_aliases (kvs : JMap) (hal : jlookup kvs "aliases" = none)
    (s : Schema) (hok : decodeSchema (.obj kvs) = .ok s) :
    (∀ r, s = .Record r → r.aliases = []) ∧
    (∀ en, s = .Enum en → en.aliases = []) ∧
    (∀ fx, s = .Fixed fx → fx.aliases = []) := by
  rw [decode_obj_eq] at hok
  unfold visitMapSchema at hok
  rcases hg : getType kvs with ⟨rt, m⟩
  rw [hg] at hok
  cases rt with
  | error e => simp at hok
  | ok t =>
    simp only [] at hok
    have hm : jlookup m "aliases" = none := by
      rw [jlookup_jremove_pair_ne kvs "type" "aliases" _ m (getType_ok kvs t m hg) (by decide),
        hal]
    cases hp : toPrimitive t with
    | some s0 =>
      rw [hp] at hok
      simp only [Except.ok.injEq] at hok
      subst hok
      rcases toPrimitive_shape t s0 hp with rfl | rfl | rfl | rfl | rfl | rfl | rfl | rfl <;>
        exact ⟨fun r hr => (nomatch hr), fun en he => (nomatch he), fun fx hf => (nomatch hf)⟩
    | none =>
      rw [hp] at hok
      simp only [] at hok
      repeat' split at hok
      · rcases toEnum_shape m s hok with ⟨en, rfl⟩
        refine ⟨fun r hr => (nomatch hr), fun en2 he => ?_, fun fx hf => (nomatch hf)⟩
        injection he with he2
        rw [← he2]
        exact toEnum_aliases m hm en hok
      · rcases toMap_shape m s hok with ⟨x, rfl⟩
        exact ⟨fun r hr => (nomatch hr), fun en he => (nomatch he), fun fx hf => (nomatch hf)⟩
      · rcases toArray_shape m s hok with ⟨x, rfl⟩
        exact ⟨fun r hr => (nomatch hr), fun en he => (nomatch he), fun fx hf => (nomatch hf)⟩
      · rcases toRecord_shape m s hok with ⟨r, rfl⟩
        refine ⟨fun r2 hr => ?_, fun en he => (nomatch he), fun fx hf => (nomatch hf)⟩
        injection hr with hr2
        rw [← hr2]
        exact toRecord_aliases m hm r hok
      · rcases toFixed_shape m s hok with ⟨fx, rfl⟩
        refine ⟨fun r hr => (nomatch hr), fun en he => (nomatch he), fun fx2 hf => ?_⟩
        injection hf with hf2
        rw [← hf2]
        exact toFixed_aliases m hm fx hok
      · simp at hok

theorem toMap_missing (data : JMap) (h : jlookup data "values" = none) :
    toMap data = .error (.custom "values is required in a map") := by
  unfold toMap
  rw [jremove_none_eq data "values" h]

theorem toMap_ok (data : JMap) (v : JValue) (s : Schema)
    (hv : jlookup data "values" = some v) (hs : decodeSchema v = .ok s) :
    toMap data = .ok (.Map s) := by
  unfold toMap
  rw [jremove_eq_of_lookup data "values" v hv]
  simp only []
  rw [hs]

theorem toMap_propagate (data : JMap) (v : JValue) (e : DeError)
    (hv : jlookup data "values" = some v) (he : decodeSchema v = .error e) :
    toMap data = .error e := by
  unfold toMap
  rw [jremove_eq_of_lookup data "values" v hv]
  simp only []
  rw [he]

theorem toArray_missing (data : JMap) (h : jlookup data "items" = none) :
    toArray data = .error (.custom "items is required in an array") := by
  unfold toArray
  rw [jremove_none_eq data "items" h]

theorem toArray_ok (data : JMap) (v : JValue) (s : Schema)
    (hv : jlookup data "items" = some v) (hs : decodeSchema v = .ok s) :
    toArray data = .ok (.Array s) := by
  unfold toArray
  rw [jremove_eq_of_lookup data "items" v hv]
  simp only []
  rw [hs]

theorem toArray_propagate (data : JMap) (v : JValue) (e : DeError)
    (hv : jlookup data "items" = some v) (he : decodeSchema v = .error e) :
    toArray data = .error e := by
  unfold toArray
  rw [jremove_eq_of_lookup data "items" v hv]
  simp only []
  rw [he]

theorem decodeSchemaList_ok (xs : List JValue) (ss : List Schema)
    (h : List.Forall₂ (fun x s => decodeSchema x = .ok s) xs ss) :
    decodeSchemaList xs = .ok ss := by
  induction h with
  | nil => simp [decodeSchemaList]
  | cons hx htl ih => simp [decodeSchemaList, hx, ih]

theorem decodeSchemaList_mem_error (xs : List JValue) (x : JValue) (e : DeError)
    (hx : x ∈ xs) (he : decodeSchema x = .error e) :
    ∃ e2, decodeSchemaList xs = .error e2 := by
  induction xs with
  | nil => cases hx
  | cons a tl ih =>
    cases ha : decodeSchema a with
    | error e3 => exact ⟨e3, by simp [decodeSchemaList, ha]⟩
    | ok s =>
      rcases List.mem_cons.mp hx with rfl | hmem
      · rw [ha] at he; cases he
      · rcases ih hmem with ⟨e2, h2⟩
        exact ⟨e2, by simp [decodeSchemaList, ha, h2]⟩

theorem toEnum_minimal (m : JMap) (n : String)
    (hn : jlookup m "name" = some (.str n))
    (hns : jlookup m "namespace" = none) (hal : jlookup m "aliases" = none)
    (hdoc : jlookup m "doc" = none) (hsym : jlookup m "symbols" = none)
    (hdef : jlookup m "default" = none) :
    toEnum m = .ok (.Enum (Enum.mk n none [] none [] none)) := by
  have p1 : ∀ k', k' ≠ "name" → jlookup (jremove m "name").2 k' = jlookup m k' :=
    fun k' hk => jlookup_jremove_ne m "name" k' hk
  unfold toEnum
  rw [removeString_str m "name" n hn]
  simp only []
  rw [removeString_none _ "namespace" (by rw [p1 "namespace" (by decide)]; exact hns)]
  simp only []
  rw [removeVecString_none _ "aliases" (by rw [p1 "aliases" (by decide)]; exact hal)]
  simp only []
  rw [removeString_none _ "doc" (by rw [p1 "doc" (by decide)]; exact hdoc)]
  simp only []
  rw [removeVecString_none _ "symbols" (by rw [p1 "symbols" (by decide)]; exact hsym)]
  simp only []
  rw [removeString_none _ "default" (by rw [p1 "default" (by decide)]; exact hdef)]

/- ============================ Claims ============================ -/

/-- C1, counterexample: the claim asserts every decoded named variant has
a non-empty name, but the decoder performs no non-emptiness check: the
mapping with discriminator "enum" and name "" decodes successfully to an
Enum whose name is the empty string. -/
theorem c1_empty_name_accepted :
    decodeSchema (.obj [("type", .str "enum"), ("name", .str "")])
        = .ok (.Enum (Enum.mk "" none [] none [] none)) ∧
      (Enum.mk "" none [] none [] none).name = "" := by
  constructor
  · simp [decodeSchema, visitMapSchema, getType, jremove, toPrimitive, toEnum,
      removeString, removeVecString, asString]
  · rfl

/-- C1, amended: for a mapping whose discriminator is "record", "enum" or
"fixed", the decoded named variant carries whatever (possibly empty) name
string was present, and when the "name" key is absent decoding always
fails; the error is the missing-name error "name is required in enum"
(for "fixed", provided "size" is absent or a valid non-negative integer —
an invalid "size" value fails earlier with its own error). -/
theorem c1_missing_name_always_fails (kvs : JMap) (t : String)
    (ht : jlookup kvs "type" = some (.str t))
    (hv : t = "record" ∨ t = "enum" ∨ t = "fixed")
    (hn : jlookup kvs "name" = none) :
    (∃ e, decodeSchema (.obj kvs) = .error e) ∧
      ((t = "fixed" →
          jlookup kvs "size" = none ∨ ∃ n : Int, 0 ≤ n ∧ jlookup kvs "size" = some (.num n)) →
        decodeSchema (.obj kvs) = .error (.custom "name is required in enum")) := by
  have hm : jlookup (jremove kvs "type").2 "name" = none := by
    rw [jlookup_jremove_ne kvs "type" "name" (by decide), hn]
  rcases hv with rfl | rfl | rfl
  · have hd : decodeSchema (.obj kvs) = toRecord (jremove kvs "type").2 := by
      rw [decode_obj_composite kvs "record" ht rfl]
      simp
    rw [hd, toRecord_missing_name _ hm]
    exact ⟨⟨_, rfl⟩, fun _ => rfl⟩
  · have hd : decodeSchema (.obj kvs) = toEnum (jremove kvs "type").2 := by
      rw [decode_obj_composite kvs "enum" ht rfl]
      simp
    rw [hd, toEnum_missing_name _ hm]
    exact ⟨⟨_, rfl⟩, fun _ => rfl⟩
  · have hd : decodeSchema (.obj kvs) = toFixed (jremove kvs "type").2 := by
      rw [decode_obj_composite kvs "fixed" ht rfl]
      simp
    have hf := toFixed_missing_name (jremove kvs "type").2 hm
    constructor
    · rcases hf.1 with ⟨e, he⟩
      exact ⟨e, by rw [hd, he]⟩
    · intro hsz
      rw [hd]
      apply hf.2
      rcases hsz rfl with hnone | ⟨n, hn0, hs⟩
      · left
        rw [jlookup_jremove_ne kvs "type" "size" (by decide)]
        exact hnone
      · right
        refine ⟨n, hn0, ?_⟩
        rw [jlookup_jremove_ne kvs "type" "size" (by decide)]
        exact hs

theorem c1_missing_name_always_fails_witness :
    decodeSchema (.obj [("type", .str "record")])
      = .error (.custom "name is required in enum") :=
  (c1_missing_name_always_fails [("type", .str "record")] "record" rfl (.inl rfl) rfl).2
    (fun h => absurd h (by decide))

/-- C2: a mapping whose "type" discriminator names neither a primitive nor
one of the five composite kinds terminates with the definite
`todo!`-panic outcome carrying the unsupported discriminator, and never
yields a successful Schema. -/
theorem c2_unsupported_discriminator (kvs : JMap) (t : String)
    (ht : jlookup kvs "type" = some (.str t))
    (h8 : t ∉ ["null", "boolean", "string", "bytes", "int", "long", "float", "double"])
    (h5 : t ∉ ["enum", "map", "array", "record", "fixed"]) :
    decodeSchema (.obj kvs) = .error (.panicTodo t) := by
  rw [decode_obj_composite kvs t ht (toPrimitive_eq_none t h8)]
  simp only [List.mem_cons, List.not_mem_nil, or_false, not_or] at h5
  rw [if_neg h5.1, if_neg h5.2.1, if_neg h5.2.2.1, if_neg h5.2.2.2.1, if_neg h5.2.2.2.2]

theorem c2_unsupported_discriminator_witness :
    decodeSchema (.obj [("type", .str "bananas")]) = .error (.panicTodo "bananas") :=
  c2_unsupported_discriminator [("type", .str "bananas")] "bananas" rfl
    (by decide) (by decide)

/-- C3: each of the eight primitive names decodes as a bare string to the
matching primitive variant, and every other bare string fails with the
custom error "string must be a valid primitive Schema" (the decoder's
invalid-value error for unrecognised primitive names). -/
theorem c3_primitive_strings :
    decodeSchema (.str "null") = .ok .Null ∧
    decodeSchema (.str "boolean") = .ok .Boolean ∧
    decodeSchema (.str "string") = .ok .String ∧
    decodeSchema (.str "bytes") = .ok .Bytes ∧
    decodeSchema (.str "int") = .ok .Int ∧
    decodeSchema (.str "long") = .ok .Long ∧
    decodeSchema (.str "float") = .ok .Float ∧
    decodeSchema (.str "double") = .ok .Double ∧
    ∀ s : String, s ∉ ["null", "boolean", "string", "bytes", "int", "long", "float", "double"] →
      decodeSchema (.str s) = .error (.custom "string must be a valid primitive Schema") := by
  refine ⟨?_, ?_, ?_, ?_, ?_, ?_, ?_, ?_, ?_⟩
  · simp [decodeSchema, toPrimitive]
  · simp [decodeSchema, toPrimitive]
  · simp [decodeSchema, toPrimitive]
  · simp [decodeSchema, toPrimitive]
  · simp [decodeSchema, toPrimitive]
  · simp [decodeSchema, toPrimitive]
  · simp [decodeSchema, toPrimitive]
  · simp [decodeSchema, toPrimitive]
  · intro s hs
    have hp := toPrimitive_eq_none s hs
    simp [decodeSchema, hp]

theorem c3_primitive_strings_witness :
    decodeSchema (.str "uuid") = .error (.custom "string must be a valid primitive Schema") :=
  c3_primitive_strings.2.2.2.2.2.2.2.2 "uuid" (by decide)

/-- C4: a sequence whose elements all decode successfully decodes to a
Union over the element schemas in input order, and a sequence containing
any failing element fails as a whole. -/
theorem c4_seq_decodes_to_union :
    (∀ (xs : List JValue) (ss : List Schema),
        List.Forall₂ (fun x s => decodeSchema x = .ok s) xs ss →
        decodeSchema (.arr xs) = .ok (.Union ss)) ∧
    (∀ (xs : List JValue) (x : JValue) (e : DeError), x ∈ xs →
        decodeSchema x = .error e → ∃ e2, decodeSchema (.arr xs) = .error e2) := by
  constructor
  · intro xs ss h
    have h2 := decodeSchemaList_ok xs ss h
    simp [decodeSchema, h2]
  · intro xs x e hx he
    rcases decodeSchemaList_mem_error xs x e hx he with ⟨e2, h2⟩
    exact ⟨e2, by simp [decodeSchema, h2]⟩

theorem c4_seq_decodes_to_union_witness :
    decodeSchema (.arr [.str "null", .str "int"]) = .ok (.Union [.Null, .Int]) :=
  c4_seq_decodes_to_union.1 [.str "null", .str "int"] [.Null, .Int]
    (.cons (by simp [decodeSchema, toPrimitive])
      (.cons (by simp [decodeSchema, toPrimitive]) .nil))

/-- C5: decode_field fails with the missing-name error when "name" is
absent; fails with the missing-schema error when "type" is absent (name
present and well-typed, doc well-typed or absent); and when name and type
are present (all present keys well-typed) returns the Field with decoded
name, the "type" value decoded as a full nested Schema, optional
doc/default/order, and aliases defaulting to []. -/
theorem c5_field_decoding :
    (∀ kvs : JMap, jlookup kvs "name" = none →
        decodeField (.obj kvs) = .error (.custom "name is required in enum")) ∧
    (∀ (kvs : JMap) (n : String) (doc : Option String),
        jlookup kvs "name" = some (.str n) →
        jlookup kvs "doc" = Option.map JValue.str doc →
        jlookup kvs "type" = none →
        decodeField (.obj kvs) = .error (.custom "schema is required in Field")) ∧
    (∀ (kvs : JMap) (n : String) (doc : Option String) (tv : JValue) (sch : Schema)
        (dflt : Option Schema) (ord : Option Order) (als : List String),
        jlookup kvs "name" = some (.str n) →
        jlookup kvs "doc" = Option.map JValue.str doc →
        jlookup kvs "type" = some tv →
        decodeSchema tv = .ok sch →
        decodesOpt (jlookup kvs "default") dflt →
        jlookup kvs "order" = Option.map (fun o => JValue.str (orderLit o)) ord →
        aliasesTo (jlookup kvs "aliases") als →
        decodeField (.obj kvs) = .ok (.mk n doc sch dflt ord als)) := by
  refine ⟨fun kvs h => ?_, fun kvs n doc h1 h2 h3 => ?_,
    fun kvs n doc tv sch dflt ord als h1 h2 h3 h4 h5 h6 h7 => ?_⟩
  · rw [decodeField_obj_eq]
    exact visitMapField_missing_name kvs h
  · rw [decodeField_obj_eq]
    exact visitMapField_missing_type kvs n doc h1 h2 h3
  · rw [decodeField_obj_eq]
    exact visitMapField_spec kvs n doc tv sch dflt ord als h1 h2 h3 h4 h5 h6 h7

theorem c5_field_decoding_witness :
    decodeField (.obj [("name", .str "f"), ("type", .str "string")])
      = .ok (.mk "f" none .String none none []) :=
  c5_field_decoding.2.2 [("name", .str "f"), ("type", .str "string")] "f" none
    (.str "string") .String none none [] rfl rfl rfl
    (by simp [decodeSchema, toPrimitive]) rfl rfl rfl

/-- C6, counterexample: the claim's "exactly when" fails — with "values"
present but holding a nested map that itself lacks "values", the nested
failure propagates verbatim, so the outer decode fails with the very
error "values is required in a map" although the "values" key is
present. -/
theorem c6_nested_map_same_error :
    decodeSchema (.obj [("type", .str "map"), ("values", .obj [("type", .str "map")])])
        = .error (.custom "values is required in a map") ∧
      jlookup [("type", .str "map"), ("values", .obj [("type", .str "map")])] "values"
        = some (.obj [("type", .str "map")]) := by
  constructor
  · simp [decodeSchema, visitMapSchema, getType, jremove, toPrimitive, toMap]
  · rfl

/-- C6, amended: with discriminator "map", a missing "values" key fails
with "values is required in a map"; a present "values" yields Map of the
decoded nested schema when the nested decode succeeds, and otherwise
propagates the nested error (which can itself read "values is required in
a map"); analogously for "array"/"items". -/
theorem c6_map_array_required_keys :
    (∀ kvs : JMap, jlookup kvs "type" = some (.str "map") → jlookup kvs "values" = none →
        decodeSchema (.obj kvs) = .error (.custom "values is required in a map")) ∧
    (∀ (kvs : JMap) (v : JValue) (s : Schema), jlookup kvs "type" = some (.str "map") →
        jlookup kvs "values" = some v → decodeSchema v = .ok s →
        decodeSchema (.obj kvs) = .ok (.Map s)) ∧
    (∀ (kvs : JMap) (v : JValue) (e : DeError), jlookup kvs "type" = some (.str "map") →
        jlookup kvs "values" = some v → decodeSchema v = .error e →
        decodeSchema (.obj kvs) = .error e) ∧
    (∀ kvs : JMap, jlookup kvs "type" = some (.str "array") → jlookup kvs "items" = none →
        decodeSchema (.obj kvs) = .error (.custom "items is required in an array")) ∧
    (∀ (kvs : JMap) (v : JValue) (s : Schema), jlookup kvs "type" = some (.str "array") →
        jlookup kvs "items" = some v → decodeSchema v = .ok s →
        decodeSchema (.obj kvs) = .ok (.Array s)) ∧
    (∀ (kvs : JMap) (v : JValue) (e : DeError), jlookup kvs "type" = some (.str "array") →
        jlookup kvs "items" = some v → decodeSchema v = .error e →
        decodeSchema (.obj kvs) = .error e) := by
  have hdm : ∀ kvs : JMap, jlookup kvs "type" = some (.str "map") →
      decodeSchema (.obj kvs) = toMap (jremove kvs "type").2 := by
    intro kvs ht
    rw [decode_obj_composite kvs "map" ht rfl]
    simp
  have hda : ∀ kvs : JMap, jlookup kvs "type" = some (.str "array") →
      decodeSchema (.obj kvs) = toArray (jremove kvs "type").2 := by
    intro kvs ht
    rw [decode_obj_composite kvs "array" ht rfl]
    simp
  refine ⟨fun kvs ht hv => ?_, fun kvs v s ht hv hs => ?_, fun kvs v e ht hv he => ?_,
    fun kvs ht hv => ?_, fun kvs v s ht hv hs => ?_, fun kvs v e ht hv he => ?_⟩
  · rw [hdm kvs ht]
    exact toMap_missing _ (by rw [jlookup_jremove_ne kvs "type" "values" (by decide)]; exact hv)
  · rw [hdm kvs ht]
    exact toMap_ok _ v s
      (by rw [jlookup_jremove_ne kvs "type" "values" (by decide)]; exact hv) hs
  · rw [hdm kvs ht]
    exact toMap_propagate _ v e
      (by rw [jlookup_jremove_ne kvs "type" "values" (by decide)]; exact hv) he
  · rw [hda kvs ht]
    exact toArray_missing _ (by rw [jlookup_jremove_ne kvs "type" "items" (by decide)]; exact hv)
  · rw [hda kvs ht]
    exact toArray_ok _ v s
      (by rw [jlookup_jremove_ne kvs "type" "items" (by decide)]; exact hv) hs
  · rw [hda kvs ht]
    exact toArray_propagate _ v e
      (by rw [jlookup_jremove_ne kvs "type" "items" (by decide)]; exact hv) he

theorem c6_map_array_required_keys_witness :
    decodeSchema (.obj [("type", .str "map"), ("values", .str "boolean")])
      = .ok (.Map .Boolean) :=
  c6_map_array_required_keys.2.1 [("type", .str "map"), ("values", .str "boolean")]
    (.str "boolean") .Boolean rfl rfl (by simp [decodeSchema, toPrimitive])

/-- C7: a mapping whose "type" discriminator names a primitive decodes to
exactly that primitive, for every mapping with that discriminator — all
other keys are silently discarded and never cause an error or affect the
result. -/
theorem c7_primitive_with_metadata (kvs : JMap) (t : String) (s : Schema)
    (ht : jlookup kvs "type" = some (.str t)) (hp : toPrimitive t = some s) :
    decodeSchema (.obj kvs) = .ok s :=
  decode_obj_prim kvs t s ht hp

theorem c7_primitive_with_metadata_witness :
    decodeSchema
        (.obj [("type", .str "int"), ("logicalType", .str "date"), ("precision", .num 10)])
      = .ok .Int :=
  c7_primitive_with_metadata
    [("type", .str "int"), ("logicalType", .str "date"), ("precision", .num 10)]
    "int" .Int rfl rfl

/-- C8: in every successfully decoded Record, Enum, Fixed and Field, the
aliases attribute is a concrete list of strings (by type it is never
absent or null), and whenever the "aliases" key is absent from the input
mapping it materialises as the empty list. -/
theorem c8_aliases_default_empty :
    (∀ (kvs : JMap) (r : Record), jlookup kvs "aliases" = none →
        decodeSchema (.obj kvs) = .ok (.Record r) → r.aliases = []) ∧
    (∀ (kvs : JMap) (en : Enum), jlookup kvs "aliases" = none →
        decodeSchema (.obj kvs) = .ok (.Enum en) → en.aliases = []) ∧
    (∀ (kvs : JMap) (fx : Fixed), jlookup kvs "aliases" = none →
        decodeSchema (.obj kvs) = .ok (.Fixed fx) → fx.aliases = []) ∧
    (∀ (kvs : JMap) (f : Field), jlookup kvs "aliases" = none →
        decodeField (.obj kvs) = .ok f → f.aliases = []) := by
  refine ⟨fun kvs r hal hok => ?_, fun kvs en hal hok => ?_, fun kvs fx hal hok => ?_,
    fun kvs f hal hok => ?_⟩
  · exact (decode_obj_aliases kvs hal _ hok).1 r rfl
  · exact (decode_obj_aliases kvs hal _ hok).2.1 en rfl
  · exact (decode_obj_aliases kvs hal _ hok).2.2 fx rfl
  · rw [decodeField_obj_eq] at hok
    exact visitMapField_aliases kvs hal f hok

theorem c8_aliases_default_empty_witness :
    (Enum.mk "Suit" none [] none [] none).aliases = [] :=
  c8_aliases_default_empty.2.1 [("type", .str "enum"), ("name", .str "Suit")]
    (Enum.mk "Suit" none [] none [] none) rfl
    (by simp [decodeSchema, visitMapSchema, getType, jremove, toPrimitive, toEnum,
      removeString, removeVecString, asString])

/-- C9: the empty sequence decodes successfully to the empty Union — the
decoder imposes no non-emptiness constraint on unions. -/
theorem c9_empty_union : decodeSchema (.arr []) = .ok (.Union []) := by
  simp [decodeSchema, decodeSchemaList]

/-- C10: a mapping with discriminator "enum" containing a string "name"
and omitting "symbols", "default", "namespace", "doc" and "aliases"
decodes to an Enum with empty symbols, empty aliases and absent
default/namespace/doc — an enum with zero symbols is accepted. -/
theorem c10_minimal_enum (kvs : JMap) (n : String)
    (ht : jlookup kvs "type" = some (.str "enum"))
    (hn : jlookup kvs "name" = some (.str n))
    (hsym : jlookup kvs "symbols" = none) (hdef : jlookup kvs "default" = none)
    (hns : jlookup kvs "namespace" = none) (hdoc : jlookup kvs "doc" = none)
    (hal : jlookup kvs "aliases" = none) :
    decodeSchema (.obj kvs) = .ok (.Enum (Enum.mk n none [] none [] none)) := by
  have hd : decodeSchema (.obj kvs) = toEnum (jremove kvs "type").2 := by
    rw [decode_obj_composite kvs "enum" ht rfl]
    simp
  rw [hd]
  have p : ∀ k', k' ≠ "type" → jlookup (jremove kvs "type").2 k' = jlookup kvs k' :=
    fun k' hk => jlookup_jremove_ne kvs "type" k' hk
  exact toEnum_minimal _ n (by rw [p "name" (by decide)]; exact hn)
    (by rw [p "namespace" (by decide)]; exact hns)
    (by rw [p "aliases" (by decide)]; exact hal)
    (by rw [p "doc" (by decide)]; exact hdoc)
    (by rw [p "symbols" (by decide)]; exact hsym)
    (by rw [p "default" (by decide)]; exact hdef)

theorem c10_minimal_enum_witness :
    decodeSchema (.obj [("type", .str "enum"), ("name", .str "Suit"), ("extra", .bool true)])
      = .ok (.Enum (Enum.mk "Suit" none [] none [] none)) :=
  c10_minimal_enum [("type", .str "enum"), ("name", .str "Suit"), ("extra", .bool true)]
    "Suit" rfl rfl rfl rfl rfl rfl rfl

end AvroSchema
